import Mathlib

/-!
Shallow embedding of mine_mof_oxstate/featurize.py (class GetFeatures).

The external scientific libraries (ase.io.read, pymatgen's AseAtomsAdaptor,
matminer's featurizers, pickle) are modelled by an environment oracle Env:
parsing either yields a Structure or raises, featurizing a site index either
yields a numeric vector or raises, and the pickle dump either succeeds or
raises.  Feature values and coordinates are opaque numeric lists (List Int):
no claim depends on their numeric content, only on which site they came from.

Python exceptions are modelled by an explicit raised flag threaded through
each method; mutation of self is modelled by explicit state passing on the
GetFeatures record; the filesystem is an association list from path to
written dictionary content; log lines are collected in a list of strings.
-/

/-- A chemical element, as used by the code only through its is_metal flag
(site.species.elements[0].is_metal). -/
structure Element where
  is_metal : Bool
deriving DecidableEq

/-- A species: the list of constituent elements.  The code accesses
species.elements[0], which raises IndexError when the list is empty. -/
structure Species where
  elements : List Element
deriving DecidableEq

/-- A site of a pymatgen structure: its species, its species_string label
(used as the key of the feature mapping) and its Cartesian coordinates. -/
structure Site where
  species : Species
  species_string : String
  coords : List Int
deriving DecidableEq

/-- A parsed structure: iterating over it yields its sites in order. -/
abbrev Structure := List Site

/-- The inner dict of the defaultdict: the keys 'feature' and 'coords',
each present once assigned. -/
structure Entry where
  feature : Option (List Int)
  coords : Option (List Int)
deriving DecidableEq

/-- The empty inner dict that defaultdict(dict) creates on first access. -/
def Entry.empty : Entry := ⟨none, none⟩

/-- self.features: a Python dict keyed by species_string, in insertion order. -/
abbrev PyDict := List (String × Entry)

/-- Python dict assignment d[k][field] = v through defaultdict(dict): if k is
present, its entry is updated in place; otherwise (k, f of empty) is appended
at the end, as Python dicts append new keys in insertion order. -/
def dictSet (d : PyDict) (k : String) (f : Entry → Entry) : PyDict :=
  match d with
  | [] => [(k, f Entry.empty)]
  | (k1, e) :: rest => if k1 = k then (k1, f e) :: rest else (k1, e) :: dictSet rest k f

/-- The filesystem: which paths hold which pickled dictionary. -/
abbrev FS := List (String × PyDict)

/-- Read a path from the filesystem model. -/
def fsGet : FS → String → Option PyDict
  | [], _ => none
  | (n, c) :: rest, k => if n = k then some c else fsGet rest k

/-- Opening a path in 'wb' mode and writing content: an existing file at that
path is silently replaced, otherwise the file is created. -/
def fsWrite (fs : FS) (name : String) (content : PyDict) : FS :=
  match fs with
  | [] => [(name, content)]
  | (n, c) :: rest =>
    if n = name then (name, content) :: rest else (n, c) :: fsWrite rest name content

/-- Split a character list at the '/' separators (helper for pathlib.Path). -/
def splitSlash : List Char → List (List Char)
  | [] => [[]]
  | c :: rest =>
    match splitSlash rest with
    | [] => [[]]
    | cur :: parts => if c = '/' then [] :: cur :: parts else (c :: cur) :: parts

/-- The components of a POSIX path as pathlib parses it: empty components and
single-dot components are dropped. -/
def pathComponents (p : String) : List (List Char) :=
  (splitSlash p.data).filter (fun c => decide (c ≠ [] ∧ c ≠ ['.']))

/-- pathlib.Path(p).name: the final path component, or empty when there is
none. -/
def pathName (p : String) : List Char :=
  match (pathComponents p).getLast? with
  | some c => c
  | none => []

/-- The index of the last '.' in a character list, if any (str.rfind('.')). -/
def rfindDotIdx : List Char → Option Nat
  | [] => none
  | c :: rest =>
    match rfindDotIdx rest with
    | some i => some (i + 1)
    | none => if c = '.' then some 0 else none

/-- CPython's Path.stem on the name: drop the last suffix when the last dot
is neither the leading character nor the trailing character. -/
def stemChars (name : List Char) : List Char :=
  match rfindDotIdx name with
  | some i => if 0 < i ∧ i + 1 < name.length then name.take i else name
  | none => name

/-- pathlib.Path(p).stem. -/
def pathStem (p : String) : String :=
  ⟨stemChars (pathName p)⟩

/-- os.path.join(a, b) for POSIX paths, as the code calls it with two
arguments. -/
def osPathJoin (a b : String) : String :=
  if b.data.head? = some '/' then b
  else if a.data = [] ∨ a.data.getLast? = some '/' then a ++ b
  else a ++ "/" ++ b

/-- The mutable state of a GetFeatures instance (its fields after
construction and during a run). -/
structure GetFeatures where
  outpath : String
  path : String
  structure_ : Option Structure
  metal_sites : List Site
  metal_indices : List Nat
  features : PyDict
  outname : String
deriving DecidableEq

/-- GetFeatures.__init__(structure, outpath): records the paths, leaves the
structure unset, starts with empty site lists and feature mapping, and
computes outname = os.path.join(outpath, Path(structure).stem + '.pkl'). -/
def GetFeatures.init (structure_ outpath : String) : GetFeatures :=
  { outpath := outpath
    path := structure_
    structure_ := none
    metal_sites := []
    metal_indices := []
    features := []
    outname := osPathJoin outpath (pathStem structure_ ++ ".pkl") }

/-- The environment oracle for the external libraries: the result of
ase.io.read + AseAtomsAdaptor.get_structure on self.path (none = some
exception was raised), the result of the matminer featurize call per site
index (none = exception), and whether the pickle dump succeeds. -/
structure Env where
  parseResult : Option Structure
  featurize : Nat → Option (List Int)
  dumpOk : Bool

/-- GetFeatures.precheck: try to parse self.path; on success store the
structure on the instance and return True, on any exception return False
leaving the instance unchanged (the try/except catches everything). -/
def precheck (env : Env) (g : GetFeatures) : GetFeatures × Bool :=
  match env.parseResult with
  | some s => ({ g with structure_ := some s }, true)
  | none => (g, false)

/-- The body of GetFeatures.get_metal_sites: for idx, site in
enumerate(self.structure): if site.species.elements[0].is_metal, append the
site and its index.  Accessing elements[0] of an empty element list raises
IndexError (second component true), with the appends made so far retained. -/
def gmsLoop : List Site → Nat → GetFeatures → GetFeatures × Bool
  | [], _, g => (g, false)
  | site :: rest, idx, g =>
    match site.species.elements.head? with
    | none => (g, true)
    | some el =>
      if el.is_metal then
        gmsLoop rest (idx + 1)
          { g with metal_sites := g.metal_sites ++ [site]
                   metal_indices := g.metal_indices ++ [idx] }
      else gmsLoop rest (idx + 1) g

/-- GetFeatures.get_metal_sites: iterate over self.structure.  When the
structure was never set (still None), iterating raises TypeError. -/
def get_metal_sites (g : GetFeatures) : GetFeatures × Bool :=
  match g.structure_ with
  | none => (g, true)
  | some s => gmsLoop s 0 g

/-- The per-site loop of run_featurization: for idx, metal_site in
enumerate(self.metal_sites), read self.metal_indices[idx] (IndexError when
out of range), call get_feature_vectors on it (which may raise), then assign
self.features[label]['feature'] and self.features[label]['coords'].  The
right-hand side is evaluated before the dict is touched, so a raising
featurize call leaves self.features unchanged for that site.  The flag
reports an uncaught exception; the state at raise time is retained. -/
def featLoop (env : Env) : Nat → List Site → GetFeatures → GetFeatures × Bool
  | _, [], g => (g, false)
  | i, site :: rest, g =>
    match g.metal_indices.get? i with
    | none => (g, true)
    | some midx =>
      match env.featurize midx with
      | none => (g, true)
      | some x =>
        let g1 := { g with
          features := dictSet g.features site.species_string (fun e => ⟨some x, e.coords⟩) }
        let g2 := { g1 with
          features := dictSet g1.features site.species_string
            (fun e => ⟨e.feature, some site.coords⟩) }
        featLoop env (i + 1) rest g2

/-- GetFeatures.dump_features: open self.outname in 'wb' mode and pickle
dict(self.features); the flag reports a raised exception (modelled as the
open failing, leaving the filesystem unchanged). -/
def dump_features (env : Env) (g : GetFeatures) (fs : FS) : FS × Bool :=
  if env.dumpOk then (fsWrite fs g.outname g.features, false) else (fs, true)

/-- The observable outcome of run_featurization: the instance state, the
filesystem, the error log lines written by this call in order, and whether
an exception propagated to the caller. -/
structure RunResult where
  state : GetFeatures
  fs : FS
  logs : List String
  raised : Bool
deriving DecidableEq

/-- GetFeatures.run_featurization: if precheck() succeeds, call
get_metal_sites() (outside any try/except: a raise here propagates), then in
a try block run the per-site loop and dump_features(), logging
'could not featurize path' on any exception caught there; if precheck()
fails, log 'could not load path'. -/
def run_featurization (env : Env) (g : GetFeatures) (fs : FS) : RunResult :=
  let pc := precheck env g
  if pc.2 then
    let gm := get_metal_sites pc.1
    if gm.2 then ⟨gm.1, fs, [], true⟩
    else
      let fl := featLoop env 0 gm.1.metal_sites gm.1
      if fl.2 then ⟨fl.1, fs, ["could not featurize " ++ fl.1.path], false⟩
      else
        let dp := dump_features env fl.1 fs
        if dp.2 then ⟨fl.1, fs, ["could not featurize " ++ fl.1.path], false⟩
        else ⟨fl.1, dp.1, [], false⟩
  else ⟨pc.1, fs, ["could not load " ++ pc.1.path], false⟩

/-! ## Derived definitions used to state and prove the claims -/

/-- The test applied by get_metal_sites to a site (false also when the
element list is empty, a case get_metal_sites cannot reach without
raising). -/
def isMetalSite (site : Site) : Bool :=
  match site.species.elements.head? with
  | some el => el.is_metal
  | none => false

/-- The (index, site) pairs that get_metal_sites selects, in structure
order. -/
def metalPairs (s : Structure) : List (Nat × Site) :=
  s.enum.filter (fun q => isMetalSite q.2)

/-- Lookup in the feature dictionary. -/
def dictGet (k : String) : PyDict → Option Entry
  | [] => none
  | (k1, e) :: rest => if k1 = k then some e else dictGet k rest

/-- How many entries of the dictionary carry the key k. -/
def countKey (k : String) : PyDict → Nat
  | [] => 0
  | (k1, _) :: rest => (if k1 = k then 1 else 0) + countKey k rest

/-- How many of the pairs carry this species label. -/
def countLabel (l : String) : List (Nat × Site) → Nat
  | [] => 0
  | q :: rest => (if q.2.species_string = l then 1 else 0) + countLabel l rest

/-- The last pair in the list whose site carries this species label. -/
def lastMatch (l : String) : List (Nat × Site) → Option (Nat × Site)
  | [] => none
  | q :: rest =>
    match lastMatch l rest with
    | some r => some r
    | none => if q.2.species_string = l then some q else none

/-- One iteration of the per-site loop at the level of the feature
dictionary: the two defaultdict assignments for one (index, site) pair with
feature vector F of the index. -/
def stepD (F : Nat → List Int) (d : PyDict) (q : Nat × Site) : PyDict :=
  dictSet (dictSet d q.2.species_string (fun e => ⟨some (F q.1), e.coords⟩))
    q.2.species_string (fun e => ⟨e.feature, some q.2.coords⟩)

/-- The effect of the whole per-site loop on the feature dictionary when
every featurize call succeeds with vector F of the site index. -/
def pureLoop (F : Nat → List Int) (pairs : List (Nat × Site)) (d : PyDict) : PyDict :=
  pairs.foldl (stepD F) d

/-- The per-site loop rephrased over the (index, site) pairs it consumes;
proved equal to featLoop below. -/
def featLoopZ (env : Env) : List (Nat × Site) → GetFeatures → GetFeatures × Bool
  | [], g => (g, false)
  | (midx, site) :: rest, g =>
    match env.featurize midx with
    | none => (g, true)
    | some x =>
      let d1 := dictSet g.features site.species_string (fun e => ⟨some x, e.coords⟩)
      let d2 := dictSet d1 site.species_string (fun e => ⟨e.feature, some site.coords⟩)
      featLoopZ env rest { g with features := d2 }

/-- The state after the two feature-dictionary assignments of one loop
iteration with feature vector x for this site. -/
def stepState (g : GetFeatures) (site : Site) (x : List Int) : GetFeatures :=
  { g with features := dictSet (dictSet g.features site.species_string fun e => ⟨some x, e.coords⟩) site.species_string fun e => ⟨e.feature, some site.coords⟩ }

/-! ## Concrete inputs used to instantiate the theorems -/

/-- An iron site: metallic, labelled Fe. -/
def siteFe : Site := ⟨⟨[⟨true⟩]⟩, "Fe", [1, 2, 3]⟩

/-- An oxygen site: not metallic. -/
def siteO : Site := ⟨⟨[⟨false⟩]⟩, "O", [4, 5, 6]⟩

/-- A copper site: metallic, labelled Cu. -/
def siteCu : Site := ⟨⟨[⟨true⟩]⟩, "Cu", [7, 8, 9]⟩

/-- A second iron site with the same Fe label but different coordinates. -/
def siteFe2 : Site := ⟨⟨[⟨true⟩]⟩, "Fe", [9, 9, 9]⟩

/-- A degenerate site whose species has no elements: accessing
species.elements[0] on it raises IndexError. -/
def siteEmptySpecies : Site := ⟨⟨[]⟩, "X", [0, 0, 0]⟩

/-- An environment where parsing, featurization and dumping all succeed. -/
def envAllOk : Env := ⟨some [siteFe, siteO, siteCu], fun n => some [(n : Int)], true⟩

/-- An environment whose structure has two metal sites sharing the Fe label. -/
def envDup : Env := ⟨some [siteFe, siteO, siteFe2], fun n => some [(n : Int)], true⟩

/-- An environment whose structure has no metal site at all. -/
def envNoMetal : Env := ⟨some [siteO], fun n => some [(n : Int)], true⟩

/-- An environment where parsing the input raises. -/
def envParseFail : Env := ⟨none, fun _ => none, true⟩

/-- An environment whose parsed structure contains a site with an empty
element list, so metal-site selection raises. -/
def envEmptySpecies : Env := ⟨some [siteEmptySpecies], fun _ => some [], true⟩

/-- An environment where featurizing the first metal site succeeds and
featurizing the second one raises. -/
def envSecondFails : Env :=
  ⟨some [siteFe, siteCu], fun n => if n = 0 then some [7] else none, true⟩

/-! ## Dictionary lemmas -/

theorem dictGet_dictSet_self (d : PyDict) (k : String) (f : Entry → Entry) :
    dictGet k (dictSet d k f) = some (f ((dictGet k d).getD Entry.empty)) := by
  induction d with
  | nil => simp [dictSet, dictGet]
  | cons p rest ih =>
    obtain ⟨k1, e⟩ := p
    by_cases h : k1 = k
    · subst h; simp [dictSet, dictGet]
    · simp [dictSet, dictGet, h, ih]

theorem dictGet_dictSet_ne (d : PyDict) (k l : String) (f : Entry → Entry) (h : l ≠ k) :
    dictGet l (dictSet d k f) = dictGet l d := by
  induction d with
  | nil => simp [dictSet, dictGet, h.symm]
  | cons p rest ih =>
    obtain ⟨k1, e⟩ := p
    by_cases h1 : k1 = k
    · subst h1
      simp [dictSet, dictGet, h.symm]
    · simp [dictSet, dictGet, h1, ih]

theorem countKey_dictSet_self (d : PyDict) (k : String) (f : Entry → Entry) :
    countKey k (dictSet d k f) = max 1 (countKey k d) := by
  induction d with
  | nil => simp [dictSet, countKey]
  | cons p rest ih =>
    obtain ⟨k1, e⟩ := p
    by_cases h : k1 = k
    · subst h
      simp [dictSet, countKey]
    · simp [dictSet, countKey, h, ih]

theorem countKey_dictSet_ne (d : PyDict) (k l : String) (f : Entry → Entry) (h : l ≠ k) :
    countKey l (dictSet d k f) = countKey l d := by
  induction d with
  | nil => simp [dictSet, countKey, h.symm]
  | cons p rest ih =>
    obtain ⟨k1, e⟩ := p
    by_cases h1 : k1 = k
    · subst h1
      simp [dictSet, countKey, h.symm]
    · simp [dictSet, countKey, h1, ih]

theorem countKey_append (k : String) (d1 d2 : PyDict) :
    countKey k (d1 ++ d2) = countKey k d1 + countKey k d2 := by
  induction d1 with
  | nil => simp [countKey]
  | cons p rest ih => obtain ⟨k1, e⟩ := p; simp [countKey, ih]; omega

theorem dictSet_fresh (d : PyDict) (k : String) (f : Entry → Entry)
    (h : countKey k d = 0) : dictSet d k f = d ++ [(k, f Entry.empty)] := by
  induction d with
  | nil => simp [dictSet]
  | cons p rest ih =>
    obtain ⟨k1, e⟩ := p
    simp only [countKey] at h
    by_cases h1 : k1 = k
    · simp [h1] at h
    · simp [h1] at h
      simp [dictSet, h1, ih h]

theorem dictSet_append_hit (d : PyDict) (k : String) (e : Entry) (f : Entry → Entry)
    (h : countKey k d = 0) : dictSet (d ++ [(k, e)]) k f = d ++ [(k, f e)] := by
  induction d with
  | nil => simp [dictSet]
  | cons p rest ih =>
    obtain ⟨k1, e1⟩ := p
    simp only [countKey] at h
    by_cases h1 : k1 = k
    · simp [h1] at h
    · simp [h1] at h
      simp [dictSet, h1, ih h]

theorem fsGet_fsWrite_self (fs : FS) (n : String) (c : PyDict) :
    fsGet (fsWrite fs n c) n = some c := by
  induction fs with
  | nil => simp [fsWrite, fsGet]
  | cons p rest ih =>
    obtain ⟨n1, c1⟩ := p
    by_cases h : n1 = n
    · subst h; simp [fsWrite, fsGet]
    · simp [fsWrite, fsGet, h, ih]

/-! ## Lemmas about one loop iteration and the whole loop on the dictionary -/

theorem dictGet_stepD (F : Nat → List Int) (d : PyDict) (q : Nat × Site) (l : String) :
    dictGet l (stepD F d q) =
      if q.2.species_string = l then some ⟨some (F q.1), some q.2.coords⟩
      else dictGet l d := by
  by_cases h : q.2.species_string = l
  · subst h
    simp [stepD, dictGet_dictSet_self]
  · simp only [stepD, h, if_false]
    rw [dictGet_dictSet_ne _ _ _ _ (Ne.symm h), dictGet_dictSet_ne _ _ _ _ (Ne.symm h)]

theorem countKey_stepD (F : Nat → List Int) (d : PyDict) (q : Nat × Site) (l : String) :
    countKey l (stepD F d q) =
      if q.2.species_string = l then max 1 (countKey l d) else countKey l d := by
  by_cases h : q.2.species_string = l
  · subst h
    simp [stepD, countKey_dictSet_self]
  · simp only [stepD, h, if_false]
    rw [countKey_dictSet_ne _ _ _ _ (Ne.symm h), countKey_dictSet_ne _ _ _ _ (Ne.symm h)]

theorem pureLoop_nil (F : Nat → List Int) (d : PyDict) : pureLoop F [] d = d := rfl

theorem pureLoop_cons (F : Nat → List Int) (q : Nat × Site) (rest : List (Nat × Site))
    (d : PyDict) : pureLoop F (q :: rest) d = pureLoop F rest (stepD F d q) := rfl

theorem dictGet_pureLoop (F : Nat → List Int) (l : String) (pairs : List (Nat × Site))
    (d : PyDict) :
    dictGet l (pureLoop F pairs d) =
      (lastMatch l pairs).elim (dictGet l d) (fun q => some ⟨some (F q.1), some q.2.coords⟩) := by
  induction pairs generalizing d with
  | nil => simp [pureLoop, lastMatch]
  | cons q rest ih =>
    rw [pureLoop_cons, ih]
    cases h : lastMatch l rest with
    | some r => simp [lastMatch, h]
    | none =>
      simp only [lastMatch, h, dictGet_stepD]
      by_cases h1 : q.2.species_string = l
      · simp [h1]
      · simp [h1]

theorem countKey_pureLoop (F : Nat → List Int) (l : String) (pairs : List (Nat × Site))
    (d : PyDict) :
    countKey l (pureLoop F pairs d) =
      if (lastMatch l pairs).isSome then max 1 (countKey l d) else countKey l d := by
  induction pairs generalizing d with
  | nil => simp [pureLoop, lastMatch]
  | cons q rest ih =>
    rw [pureLoop_cons, ih]
    cases h : lastMatch l rest with
    | some r =>
      simp only [lastMatch, h, Option.isSome_some, if_true, countKey_stepD]
      by_cases h1 : q.2.species_string = l
      · simp [h1]
      · simp [h1]
    | none =>
      simp only [lastMatch, h, Option.isSome_none, Bool.false_eq_true, if_false, countKey_stepD]
      by_cases h1 : q.2.species_string = l
      · simp [h1]
      · simp [h1]

theorem lastMatch_isSome_of_mem (q : Nat × Site) (pairs : List (Nat × Site))
    (h : q ∈ pairs) : (lastMatch q.2.species_string pairs).isSome = true := by
  induction pairs with
  | nil => cases h
  | cons r rest ih =>
    rcases List.mem_cons.mp h with h1 | h1
    · subst h1
      cases h2 : lastMatch q.2.species_string rest with
      | some x => simp [lastMatch, h2]
      | none => simp [lastMatch, h2]
    · have := ih h1
      cases h2 : lastMatch q.2.species_string rest with
      | some x => simp [lastMatch, h2]
      | none => rw [h2] at this; cases this

theorem lastMatch_eq_none_iff (l : String) (pairs : List (Nat × Site)) :
    lastMatch l pairs = none ↔ ∀ q ∈ pairs, q.2.species_string ≠ l := by
  induction pairs with
  | nil => simp [lastMatch]
  | cons r rest ih =>
    cases h2 : lastMatch l rest with
    | some x =>
      simp only [lastMatch, h2]
      constructor
      · intro h3; cases h3
      · intro h3
        exfalso
        have := ih.mpr (fun q hq => h3 q (List.mem_cons_of_mem _ hq))
        rw [h2] at this; cases this
    | none =>
      simp only [lastMatch, h2]
      constructor
      · intro h3
        intro q hq
        rcases List.mem_cons.mp hq with h4 | h4
        · subst h4
          intro h5
          rw [h5] at h3
          simp at h3
        · exact ih.mp h2 q h4
      · intro h3
        have h4 := h3 r (List.mem_cons_self _ _)
        simp [h4]

theorem lastMatch_self_of_nodup (q : Nat × Site) (pairs : List (Nat × Site))
    (hnd : (pairs.map (fun r => r.2.species_string)).Nodup) (h : q ∈ pairs) :
    lastMatch q.2.species_string pairs = some q := by
  induction pairs with
  | nil => cases h
  | cons r rest ih =>
    simp only [List.map_cons, List.nodup_cons] at hnd
    rcases List.mem_cons.mp h with h1 | h1
    · subst h1
      have hnone : lastMatch q.2.species_string rest = none := by
        rw [lastMatch_eq_none_iff]
        intro r hr hlab
        exact hnd.1 (by rw [← hlab]; exact List.mem_map_of_mem _ hr)
      simp [lastMatch, hnone]
    · have := ih hnd.2 h1
      simp [lastMatch, this]

theorem stepD_fresh (F : Nat → List Int) (d : PyDict) (q : Nat × Site)
    (h : countKey q.2.species_string d = 0) :
    stepD F d q = d ++ [(q.2.species_string, ⟨some (F q.1), some q.2.coords⟩)] := by
  unfold stepD
  rw [dictSet_fresh _ _ _ h, dictSet_append_hit _ _ _ _ h]

theorem pureLoop_append_of_fresh (F : Nat → List Int) (pairs : List (Nat × Site)) (d : PyDict)
    (hnd : (pairs.map (fun r => r.2.species_string)).Nodup)
    (hfresh : ∀ q ∈ pairs, countKey q.2.species_string d = 0) :
    pureLoop F pairs d =
      d ++ pairs.map (fun q => (q.2.species_string, (⟨some (F q.1), some q.2.coords⟩ : Entry))) := by
  induction pairs generalizing d with
  | nil => simp [pureLoop]
  | cons q rest ih =>
    simp only [List.map_cons, List.nodup_cons] at hnd
    rw [pureLoop_cons, stepD_fresh F d q (hfresh q (List.mem_cons_self _ _))]
    have hfresh2 : ∀ r ∈ rest, countKey r.2.species_string
        (d ++ [(q.2.species_string, (⟨some (F q.1), some q.2.coords⟩ : Entry))]) = 0 := by
      intro r hr
      rw [countKey_append, hfresh r (List.mem_cons_of_mem _ hr)]
      have hne : q.2.species_string ≠ r.2.species_string := by
        intro hcontra
        exact hnd.1 (by rw [hcontra]; exact List.mem_map_of_mem _ hr)
      simp [countKey, hne]
    rw [ih _ hnd.2 hfresh2]
    simp

theorem gmsLoop_spec (l : List Site) (idx : Nat) (g : GetFeatures)
    (h : ∀ site ∈ l, site.species.elements ≠ []) :
    gmsLoop l idx g =
      ({ g with
          metal_sites := g.metal_sites ++
            ((List.enumFrom idx l).filter (fun q => isMetalSite q.2)).map Prod.snd
          metal_indices := g.metal_indices ++
            ((List.enumFrom idx l).filter (fun q => isMetalSite q.2)).map Prod.fst }, false) := by
  induction l generalizing idx g with
  | nil => simp [gmsLoop, List.enumFrom]
  | cons site rest ih =>
    have hne := h site (List.mem_cons_self _ _)
    have hrest : ∀ s ∈ rest, s.species.elements ≠ [] :=
      fun s hs => h s (List.mem_cons_of_mem _ hs)
    cases helem : site.species.elements with
    | nil => exact absurd helem hne
    | cons el els =>
      have hm : isMetalSite site = el.is_metal := by simp [isMetalSite, helem]
      by_cases hmetal : el.is_metal
      · have hstep : gmsLoop (site :: rest) idx g =
            gmsLoop rest (idx + 1)
              { g with metal_sites := g.metal_sites ++ [site]
                       metal_indices := g.metal_indices ++ [idx] } := by
          simp [gmsLoop, helem, hmetal]
        rw [hstep, ih (idx + 1) _ hrest]
        simp [List.enumFrom, List.filter, hm, hmetal, List.append_assoc]
      · have hstep : gmsLoop (site :: rest) idx g = gmsLoop rest (idx + 1) g := by
          simp [gmsLoop, helem, hmetal]
        rw [hstep, ih (idx + 1) _ hrest]
        simp [List.enumFrom, List.filter, hm, hmetal]

theorem get_metal_sites_spec (g : GetFeatures) (s : Structure)
    (hs : g.structure_ = some s) (h : ∀ site ∈ s, site.species.elements ≠ []) :
    get_metal_sites g =
      ({ g with
          metal_sites := g.metal_sites ++ (metalPairs s).map Prod.snd
          metal_indices := g.metal_indices ++ (metalPairs s).map Prod.fst }, false) := by
  have hred : get_metal_sites g = gmsLoop s 0 g := by
    unfold get_metal_sites
    rw [hs]
  rw [hred]
  exact gmsLoop_spec s 0 g h

theorem get?_append_cons (pre : List Nat) (a : Nat) (post : List Nat) :
    (pre ++ a :: post).get? pre.length = some a := by
  induction pre with
  | nil => rfl
  | cons b rest ih => simpa using ih

theorem featLoop_eq_featLoopZ (env : Env) (pairs : List (Nat × Site)) (pre : List Nat)
    (g : GetFeatures) (hmi : g.metal_indices = pre ++ pairs.map Prod.fst) :
    featLoop env pre.length (pairs.map Prod.snd) g = featLoopZ env pairs g := by
  induction pairs generalizing pre g with
  | nil => simp [featLoop, featLoopZ]
  | cons q rest ih =>
    obtain ⟨midx, site⟩ := q
    have hget : g.metal_indices.get? pre.length = some midx := by
      rw [hmi]
      exact get?_append_cons pre midx _
    simp only [List.map_cons, featLoop]
    rw [hget]
    cases hf : env.featurize midx with
    | none => simp [featLoopZ, hf]
    | some x =>
      have hih := ih (pre ++ [midx]) (stepState g site x) (by simp [stepState, hmi])
      simp only [List.length_append, List.length_cons, List.length_nil] at hih
      simpa [featLoopZ, hf, stepState] using hih

theorem featLoopZ_success (env : Env) (F : Nat → List Int) (pairs : List (Nat × Site))
    (g : GetFeatures) (hF : ∀ q ∈ pairs, env.featurize q.1 = some (F q.1)) :
    featLoopZ env pairs g = ({ g with features := pureLoop F pairs g.features }, false) := by
  induction pairs generalizing g with
  | nil => simp [featLoopZ, pureLoop]
  | cons q rest ih =>
    obtain ⟨midx, site⟩ := q
    have hq := hF _ (List.mem_cons_self _ _)
    simp only [featLoopZ, hq]
    rw [ih _ (fun r hr => hF r (List.mem_cons_of_mem _ hr))]
    rw [pureLoop_cons]
    rfl

theorem featLoopZ_fail (env : Env) (F : Nat → List Int) (pre : List (Nat × Site))
    (q : Nat × Site) (post : List (Nat × Site)) (g : GetFeatures)
    (hpre : ∀ r ∈ pre, env.featurize r.1 = some (F r.1))
    (hfail : env.featurize q.1 = none) :
    featLoopZ env (pre ++ q :: post) g = ({ g with features := pureLoop F pre g.features }, true) := by
  induction pre generalizing g with
  | nil =>
    obtain ⟨midx, site⟩ := q
    simp only [List.nil_append, featLoopZ, hfail, pureLoop, List.foldl_nil]
  | cons r rest ih =>
    obtain ⟨midx, site⟩ := r
    have hr := hpre _ (List.mem_cons_self _ _)
    have hih := ih (stepState g site (F midx))
      (fun r1 hr1 => hpre r1 (List.mem_cons_of_mem _ hr1))
    rw [pureLoop_cons]
    simpa [featLoopZ, hr, stepState, stepD] using hih

/-! ## Characterizations of a whole run -/

theorem run_success_spec (env : Env) (g : GetFeatures) (fs : FS) (F : Nat → List Int)
    (s : Structure)
    (hparse : env.parseResult = some s)
    (hne : ∀ site ∈ s, site.species.elements ≠ [])
    (hF : ∀ q ∈ metalPairs s, env.featurize q.1 = some (F q.1))
    (hdump : env.dumpOk = true)
    (hms : g.metal_sites = []) (hmi : g.metal_indices = []) :
    run_featurization env g fs =
      ⟨{ g with structure_ := some s
                metal_sites := (metalPairs s).map Prod.snd
                metal_indices := (metalPairs s).map Prod.fst
                features := pureLoop F (metalPairs s) g.features },
       fsWrite fs g.outname (pureLoop F (metalPairs s) g.features), [], false⟩ := by
  have hpre : precheck env g = ({ g with structure_ := some s }, true) := by
    simp [precheck, hparse]
  have hgms : get_metal_sites { g with structure_ := some s } =
      ({ g with structure_ := some s
                metal_sites := (metalPairs s).map Prod.snd
                metal_indices := (metalPairs s).map Prod.fst }, false) := by
    rw [get_metal_sites_spec _ s rfl hne]
    simp [hms, hmi]
  have hloop : featLoop env 0
      ({ g with structure_ := some s
                metal_sites := (metalPairs s).map Prod.snd
                metal_indices := (metalPairs s).map Prod.fst } : GetFeatures).metal_sites
      { g with structure_ := some s
               metal_sites := (metalPairs s).map Prod.snd
               metal_indices := (metalPairs s).map Prod.fst } =
      ({ g with structure_ := some s
                metal_sites := (metalPairs s).map Prod.snd
                metal_indices := (metalPairs s).map Prod.fst
                features := pureLoop F (metalPairs s) g.features }, false) := by
    have h0 := featLoop_eq_featLoopZ env (metalPairs s) []
      { g with structure_ := some s
               metal_sites := (metalPairs s).map Prod.snd
               metal_indices := (metalPairs s).map Prod.fst }
      (by simp)
    simp only [List.length_nil] at h0
    have h1 := featLoopZ_success env F (metalPairs s)
      { g with structure_ := some s
               metal_sites := (metalPairs s).map Prod.snd
               metal_indices := (metalPairs s).map Prod.fst }
      hF
    exact h0.trans h1
  simp only [run_featurization, hpre, hgms, hloop, dump_features, hdump]
  simp

theorem run_loopfail_spec (env : Env) (g : GetFeatures) (fs : FS) (F : Nat → List Int)
    (s : Structure) (pre post : List (Nat × Site)) (q : Nat × Site)
    (hparse : env.parseResult = some s)
    (hne : ∀ site ∈ s, site.species.elements ≠ [])
    (hsplit : metalPairs s = pre ++ q :: post)
    (hpre : ∀ r ∈ pre, env.featurize r.1 = some (F r.1))
    (hfail : env.featurize q.1 = none)
    (hms : g.metal_sites = []) (hmi : g.metal_indices = []) :
    run_featurization env g fs =
      ⟨{ g with structure_ := some s
                metal_sites := (metalPairs s).map Prod.snd
                metal_indices := (metalPairs s).map Prod.fst
                features := pureLoop F pre g.features },
       fs, ["could not featurize " ++ g.path], false⟩ := by
  have hprec : precheck env g = ({ g with structure_ := some s }, true) := by
    simp [precheck, hparse]
  have hgms : get_metal_sites { g with structure_ := some s } =
      ({ g with structure_ := some s
                metal_sites := (metalPairs s).map Prod.snd
                metal_indices := (metalPairs s).map Prod.fst }, false) := by
    rw [get_metal_sites_spec _ s rfl hne]
    simp [hms, hmi]
  have hloop : featLoop env 0
      ({ g with structure_ := some s
                metal_sites := (metalPairs s).map Prod.snd
                metal_indices := (metalPairs s).map Prod.fst } : GetFeatures).metal_sites
      { g with structure_ := some s
               metal_sites := (metalPairs s).map Prod.snd
               metal_indices := (metalPairs s).map Prod.fst } =
      ({ g with structure_ := some s
                metal_sites := (metalPairs s).map Prod.snd
                metal_indices := (metalPairs s).map Prod.fst
                features := pureLoop F pre g.features }, true) := by
    have h0 := featLoop_eq_featLoopZ env (metalPairs s) []
      { g with structure_ := some s
               metal_sites := (metalPairs s).map Prod.snd
               metal_indices := (metalPairs s).map Prod.fst }
      (by simp)
    simp only [List.length_nil] at h0
    have h1 := featLoopZ_fail env F pre q post
      { g with structure_ := some s
               metal_sites := (metalPairs s).map Prod.snd
               metal_indices := (metalPairs s).map Prod.fst }
      hpre hfail
    rw [← hsplit] at h1
    exact h0.trans h1
  simp only [run_featurization, hprec, hgms, hloop]
  simp

/-- The exception flag of a whole run is exactly the conjunction: precheck
succeeded and get_metal_sites raised; every other failure is caught. -/
theorem run_raised_eq (env : Env) (g : GetFeatures) (fs : FS) :
    (run_featurization env g fs).raised =
      ((precheck env g).2 && (get_metal_sites (precheck env g).1).2) := by
  rcases hpc : precheck env g with ⟨g1, b1⟩
  rcases hgm : get_metal_sites g1 with ⟨g2, b2⟩
  rcases hfl : featLoop env 0 g2.metal_sites g2 with ⟨g3, b3⟩
  rcases hdp : dump_features env g3 fs with ⟨fs2, b4⟩
  cases b1 <;> cases b2 <;> cases b3 <;> cases b4 <;>
    simp [run_featurization, hpc, hgm, hfl, hdp]

/-- C1 (counterexample): the claim is false as stated.  When the parsed
structure contains a site whose species has no elements, the IndexError
raised inside get_metal_sites — which run_featurization calls outside its
try/except — propagates to the caller instead of degrading to a log line. -/
theorem C1_counterexample :
    (run_featurization envEmptySpecies (GetFeatures.init "in/bad.cif" "out") []).raised
      = true := by decide

/-- C1 (amended): run_featurization never raises to its caller — load
failures, per-site featurization exceptions and serialization exceptions are
all caught and degraded to a log line — provided metal-site selection itself
cannot raise, i.e. every site of a successfully parsed structure has a
nonempty species element list; get_metal_sites runs outside the try/except,
so an exception there would propagate. -/
theorem C1_catches_all_but_selection (env : Env) (g : GetFeatures) (fs : FS)
    (h : ∀ s, env.parseResult = some s → ∀ site ∈ s, site.species.elements ≠ []) :
    (run_featurization env g fs).raised = false := by
  rw [run_raised_eq]
  cases hp : env.parseResult with
  | none => simp [precheck, hp]
  | some s =>
    have hpre : precheck env g = ({ g with structure_ := some s }, true) := by
      simp [precheck, hp]
    have hgms := get_metal_sites_spec { g with structure_ := some s } s rfl (h s hp)
    simp [hpre, hgms]

/-- Witness for C1 (amended) at a concrete run that parses successfully. -/
theorem C1_catches_all_but_selection_witness :
    (run_featurization envAllOk (GetFeatures.init "data/foo.cif" "outdir") []).raised
      = false :=
  C1_catches_all_but_selection envAllOk (GetFeatures.init "data/foo.cif" "outdir") []
    (by intro s hs
        simp only [envAllOk] at hs
        injection hs with h1
        subst h1
        decide)

/-- C7: when precheck fails (the input cannot be parsed), run_featurization
leaves the instance and the filesystem unchanged — no output file is written
— and produces exactly one error log line naming the input path. -/
theorem C7_parse_failure_no_output_one_log (env : Env) (g : GetFeatures) (fs : FS)
    (h : env.parseResult = none) :
    run_featurization env g fs = ⟨g, fs, ["could not load " ++ g.path], false⟩ := by
  have hpre : precheck env g = (g, false) := by simp [precheck, h]
  simp [run_featurization, hpre]

/-- Witness for C7 at a concrete unparsable input. -/
theorem C7_parse_failure_no_output_one_log_witness :
    run_featurization envParseFail (GetFeatures.init "in/a.cif" "out") [("keep", [])] =
      ⟨GetFeatures.init "in/a.cif" "out", [("keep", [])],
       ["could not load " ++ (GetFeatures.init "in/a.cif" "out").path], false⟩ :=
  C7_parse_failure_no_output_one_log envParseFail (GetFeatures.init "in/a.cif" "out")
    [("keep", [])] rfl

/-- C10: precheck is total — it returns a boolean for every input and
environment by construction (its type carries no exception flag, because the
try/except catches every exception of the body) — and when it returns false
the instance is unchanged: the structure field keeps its prior value (still
None on a fresh instance).  It takes no filesystem argument, so it creates
no file. -/
theorem C10_precheck_total_atomic (env : Env) (g : GetFeatures)
    (h : (precheck env g).2 = false) : (precheck env g).1 = g := by
  cases hp : env.parseResult with
  | none => simp [precheck, hp]
  | some s => simp [precheck, hp] at h

/-- Witness for C10 at a concrete failing parse. -/
theorem C10_precheck_total_atomic_witness :
    (precheck envParseFail (GetFeatures.init "nosuch.cif" "out")).2 = false ∧
    (precheck envParseFail (GetFeatures.init "nosuch.cif" "out")).1 =
      GetFeatures.init "nosuch.cif" "out" :=
  ⟨rfl, C10_precheck_total_atomic envParseFail (GetFeatures.init "nosuch.cif" "out") rfl⟩

/-- C2 (counterexample): the claim is false as stated.  With two metal sites
Fe and Cu where featurizing Cu raises, run_featurization returns normally but
the instance's accumulated feature mapping still contains the Fe entry
written before the exception: partial progress is retained in memory. -/
theorem C2_counterexample :
    (run_featurization envSecondFails (GetFeatures.init "in/a.cif" "out") []).raised
      = false ∧
    dictGet "Fe"
        (run_featurization envSecondFails
          (GetFeatures.init "in/a.cif" "out") []).state.features =
      some ⟨some [7], some [1, 2, 3]⟩ := by decide

/-- C2 (amended): if an exception is raised while processing any site in the
per-site loop, run_featurization returns normally and no partial output is
written — the filesystem is unchanged — but the instance's accumulated
feature mapping retains an entry for every site processed before the
exception (there is no rollback of self.features). -/
theorem C2_writes_nothing_but_state_retained (env : Env) (p out : String) (fs : FS)
    (F : Nat → List Int) (s : Structure) (pre post : List (Nat × Site)) (q : Nat × Site)
    (hparse : env.parseResult = some s)
    (hne : ∀ site ∈ s, site.species.elements ≠ [])
    (hsplit : metalPairs s = pre ++ q :: post)
    (hpre : ∀ r ∈ pre, env.featurize r.1 = some (F r.1))
    (hfail : env.featurize q.1 = none) :
    (run_featurization env (GetFeatures.init p out) fs).raised = false ∧
    (run_featurization env (GetFeatures.init p out) fs).fs = fs ∧
    ∀ r ∈ pre, dictGet r.2.species_string
      (run_featurization env (GetFeatures.init p out) fs).state.features ≠ none := by
  have hrun := run_loopfail_spec env (GetFeatures.init p out) fs F s pre post q
    hparse hne hsplit hpre hfail rfl rfl
  rw [hrun]
  refine ⟨rfl, rfl, ?_⟩
  intro r hr
  show dictGet r.2.species_string
    (pureLoop F pre (GetFeatures.init p out).features) ≠ none
  rw [dictGet_pureLoop]
  have hsome := lastMatch_isSome_of_mem r pre hr
  cases hlm : lastMatch r.2.species_string pre with
  | none => rw [hlm] at hsome; cases hsome
  | some q1 => simp

/-- Witness for C2 (amended) at a concrete run whose second featurize call
raises. -/
theorem C2_writes_nothing_but_state_retained_witness :
    (run_featurization envSecondFails (GetFeatures.init "in/b.cif" "out") [("x", [])]).raised
      = false ∧
    (run_featurization envSecondFails (GetFeatures.init "in/b.cif" "out") [("x", [])]).fs
      = [("x", [])] ∧
    ∀ r ∈ [((0 : Nat), siteFe)], dictGet r.2.species_string
      (run_featurization envSecondFails
        (GetFeatures.init "in/b.cif" "out") [("x", [])]).state.features ≠ none :=
  C2_writes_nothing_but_state_retained envSecondFails "in/b.cif" "out" [("x", [])]
    (fun _ => [7]) [siteFe, siteCu] [(0, siteFe)] [] (1, siteCu)
    rfl (by decide) (by decide) (by decide) (by decide)

/-- C3: if the featurize call raises for one metal site, the remaining loop
iterations are skipped (the feature mapping holds exactly the fold over the
sites before the failing one), no output file is written (the filesystem is
unchanged), an error naming the input path is logged, and the method returns
normally. -/
theorem C3_loop_exception_all_or_nothing (env : Env) (p out : String) (fs : FS)
    (F : Nat → List Int) (s : Structure) (pre post : List (Nat × Site)) (q : Nat × Site)
    (hparse : env.parseResult = some s)
    (hne : ∀ site ∈ s, site.species.elements ≠ [])
    (hsplit : metalPairs s = pre ++ q :: post)
    (hpre : ∀ r ∈ pre, env.featurize r.1 = some (F r.1))
    (hfail : env.featurize q.1 = none) :
    (run_featurization env (GetFeatures.init p out) fs).fs = fs ∧
    (run_featurization env (GetFeatures.init p out) fs).logs
      = ["could not featurize " ++ p] ∧
    (run_featurization env (GetFeatures.init p out) fs).raised = false ∧
    (run_featurization env (GetFeatures.init p out) fs).state.features
      = pureLoop F pre [] := by
  have hrun := run_loopfail_spec env (GetFeatures.init p out) fs F s pre post q
    hparse hne hsplit hpre hfail rfl rfl
  rw [hrun]
  exact ⟨rfl, rfl, rfl, rfl⟩

/-- Witness for C3 at a concrete run whose second featurize call raises. -/
theorem C3_loop_exception_all_or_nothing_witness :
    (run_featurization envSecondFails (GetFeatures.init "in/c.cif" "out") [("y", [])]).fs
      = [("y", [])] ∧
    (run_featurization envSecondFails (GetFeatures.init "in/c.cif" "out") [("y", [])]).logs
      = ["could not featurize " ++ "in/c.cif"] ∧
    (run_featurization envSecondFails (GetFeatures.init "in/c.cif" "out") [("y", [])]).raised
      = false ∧
    (run_featurization envSecondFails
        (GetFeatures.init "in/c.cif" "out") [("y", [])]).state.features
      = pureLoop (fun _ => [7]) [(0, siteFe)] [] :=
  C3_loop_exception_all_or_nothing envSecondFails "in/c.cif" "out" [("y", [])]
    (fun _ => [7]) [siteFe, siteCu] [(0, siteFe)] [] (1, siteCu)
    rfl (by decide) (by decide) (by decide) (by decide)

/-- C4: when two or more metal sites share a species label, a successful run
writes an output mapping with exactly one entry for that label, and that
entry's feature vector and coordinates come from the site processed last in
site order: later sites overwrite earlier ones. -/
theorem C4_duplicate_label_last_site_wins (env : Env) (p out : String) (fs : FS)
    (F : Nat → List Int) (s : Structure) (l : String) (q : Nat × Site)
    (hparse : env.parseResult = some s)
    (hne : ∀ site ∈ s, site.species.elements ≠ [])
    (hF : ∀ r ∈ metalPairs s, env.featurize r.1 = some (F r.1))
    (hdump : env.dumpOk = true)
    (hdup : 2 ≤ countLabel l (metalPairs s))
    (hlast : lastMatch l (metalPairs s) = some q) :
    ∃ d, fsGet (run_featurization env (GetFeatures.init p out) fs).fs
        (GetFeatures.init p out).outname = some d ∧
      countKey l d = 1 ∧ dictGet l d = some ⟨some (F q.1), some q.2.coords⟩ := by
  have hrun := run_success_spec env (GetFeatures.init p out) fs F s hparse hne hF hdump
    rfl rfl
  rw [hrun]
  refine ⟨pureLoop F (metalPairs s) [], ?_, ?_, ?_⟩
  · exact fsGet_fsWrite_self fs _ _
  · rw [countKey_pureLoop, hlast]
    simp [countKey]
  · rw [dictGet_pureLoop, hlast]
    rfl

/-- Witness for C4 at a structure with two Fe sites: the surviving entry is
the later site's. -/
theorem C4_duplicate_label_last_site_wins_witness :
    2 ≤ countLabel "Fe" (metalPairs [siteFe, siteO, siteFe2]) ∧
    ∃ d, fsGet (run_featurization envDup (GetFeatures.init "in/d.cif" "out") []).fs
        (GetFeatures.init "in/d.cif" "out").outname = some d ∧
      countKey "Fe" d = 1 ∧ dictGet "Fe" d = some ⟨some [2], some [9, 9, 9]⟩ :=
  ⟨by decide,
   C4_duplicate_label_last_site_wins envDup "in/d.cif" "out" [] (fun n => [(n : Int)])
     [siteFe, siteO, siteFe2] "Fe" (2, siteFe2) rfl (by decide) (by decide) rfl
     (by decide) (by decide)⟩

/-- C5: for a structure whose metal sites all carry distinct species labels,
a successful run writes an output mapping with exactly one entry per metal
site, keyed by that site's label, with the site's own coordinates. -/
theorem C5_distinct_labels_complete (env : Env) (p out : String) (fs : FS)
    (F : Nat → List Int) (s : Structure)
    (hparse : env.parseResult = some s)
    (hne : ∀ site ∈ s, site.species.elements ≠ [])
    (hF : ∀ r ∈ metalPairs s, env.featurize r.1 = some (F r.1))
    (hdump : env.dumpOk = true)
    (hnodup : ((metalPairs s).map (fun r => r.2.species_string)).Nodup) :
    ∃ d, fsGet (run_featurization env (GetFeatures.init p out) fs).fs
        (GetFeatures.init p out).outname = some d ∧
      d.length = (metalPairs s).length ∧
      ∀ r ∈ metalPairs s,
        dictGet r.2.species_string d = some ⟨some (F r.1), some r.2.coords⟩ := by
  have hrun := run_success_spec env (GetFeatures.init p out) fs F s hparse hne hF hdump
    rfl rfl
  rw [hrun]
  refine ⟨pureLoop F (metalPairs s) [], fsGet_fsWrite_self fs _ _, ?_, ?_⟩
  · rw [pureLoop_append_of_fresh F (metalPairs s) [] hnodup (fun r hr => rfl)]
    simp
  · intro r hr
    rw [dictGet_pureLoop, lastMatch_self_of_nodup r _ hnodup hr]
    rfl

/-- Witness for C5 at a structure with two metal sites Fe and Cu. -/
theorem C5_distinct_labels_complete_witness :
    ∃ d, fsGet (run_featurization envAllOk (GetFeatures.init "data/foo.cif" "outdir") []).fs
        (GetFeatures.init "data/foo.cif" "outdir").outname = some d ∧
      d.length = (metalPairs [siteFe, siteO, siteCu]).length ∧
      ∀ r ∈ metalPairs [siteFe, siteO, siteCu],
        dictGet r.2.species_string d = some ⟨some [(r.1 : Int)], some r.2.coords⟩ :=
  C5_distinct_labels_complete envAllOk "data/foo.cif" "outdir" [] (fun n => [(n : Int)])
    [siteFe, siteO, siteCu] rfl (by decide) (by decide) rfl (by decide)

/-- C6: a structure that parses but has zero metal sites still gets its
output file written, containing the empty mapping, with no error logged and
no exception. -/
theorem C6_zero_metal_sites_empty_output (env : Env) (p out : String) (fs : FS)
    (s : Structure)
    (hparse : env.parseResult = some s)
    (hne : ∀ site ∈ s, site.species.elements ≠ [])
    (hzero : metalPairs s = [])
    (hdump : env.dumpOk = true) :
    fsGet (run_featurization env (GetFeatures.init p out) fs).fs
      (GetFeatures.init p out).outname = some [] ∧
    (run_featurization env (GetFeatures.init p out) fs).logs = [] ∧
    (run_featurization env (GetFeatures.init p out) fs).raised = false := by
  have hF : ∀ r ∈ metalPairs s,
      env.featurize r.1 = some ((fun _ => ([] : List Int)) r.1) := by
    rw [hzero]
    intro r hr
    cases hr
  have hrun := run_success_spec env (GetFeatures.init p out) fs (fun _ => []) s
    hparse hne hF hdump rfl rfl
  rw [hrun]
  refine ⟨?_, rfl, rfl⟩
  rw [hzero]
  exact fsGet_fsWrite_self fs _ _

/-- Witness for C6 at a structure containing only an oxygen site. -/
theorem C6_zero_metal_sites_empty_output_witness :
    fsGet (run_featurization envNoMetal (GetFeatures.init "x/y.cif" "out") []).fs
      (GetFeatures.init "x/y.cif" "out").outname = some [] ∧
    (run_featurization envNoMetal (GetFeatures.init "x/y.cif" "out") []).logs = [] ∧
    (run_featurization envNoMetal (GetFeatures.init "x/y.cif" "out") []).raised = false :=
  C6_zero_metal_sites_empty_output envNoMetal "x/y.cif" "out" [] [siteO]
    rfl (by decide) (by decide) rfl

/-- C8: the output file path is the output directory joined with the input
file's stem plus the pkl extension; in particular input data/foo.cif with
output directory outdir yields outdir/foo.pkl. -/
theorem C8_outname_stem_pkl (p out : String) :
    (GetFeatures.init p out).outname = osPathJoin out (pathStem p ++ ".pkl") ∧
    (GetFeatures.init "data/foo.cif" "outdir").outname = "outdir/foo.pkl" :=
  ⟨rfl, by decide⟩

/-- C9: the output path depends only on the input path's stem and the output
directory — two inputs with the same stem map to the same output path — and
dump_features writes to that path unconditionally, so whatever the
filesystem previously held there is replaced. -/
theorem C9_outname_depends_only_on_stem (p1 p2 out : String) (env : Env)
    (g : GetFeatures) (fs : FS)
    (hstem : pathStem p1 = pathStem p2) (hdump : env.dumpOk = true) :
    (GetFeatures.init p1 out).outname = (GetFeatures.init p2 out).outname ∧
    fsGet (dump_features env g fs).1 g.outname = some g.features := by
  constructor
  · show osPathJoin out (pathStem p1 ++ ".pkl") = osPathJoin out (pathStem p2 ++ ".pkl")
    rw [hstem]
  · have hw : (dump_features env g fs).1 = fsWrite fs g.outname g.features := by
      simp [dump_features, hdump]
    rw [hw]
    exact fsGet_fsWrite_self fs _ _

/-- Witness for C9: a .cif and a .txt input sharing the stem foo, and a dump
over a filesystem that already holds a file at the output path. -/
theorem C9_outname_depends_only_on_stem_witness :
    pathStem "a/foo.cif" = pathStem "b/foo.txt" ∧
    ((GetFeatures.init "a/foo.cif" "out").outname
        = (GetFeatures.init "b/foo.txt" "out").outname ∧
     fsGet (dump_features envAllOk (GetFeatures.init "a/foo.cif" "out")
          [((GetFeatures.init "a/foo.cif" "out").outname, [("Old", ⟨none, none⟩)])]).1
        (GetFeatures.init "a/foo.cif" "out").outname =
       some (GetFeatures.init "a/foo.cif" "out").features) :=
  ⟨by decide,
   C9_outname_depends_only_on_stem "a/foo.cif" "b/foo.txt" "out" envAllOk
     (GetFeatures.init "a/foo.cif" "out")
     [((GetFeatures.init "a/foo.cif" "out").outname, [("Old", ⟨none, none⟩)])]
     (by decide) rfl⟩
